import Mathlib

/-!
Verification of the snarkjs-proof parsing pipeline of `apollon-predict`
(`src/contracts/verifier/src/lib.rs`), as a shallow embedding in Lean 4.

Modelling conventions:
* Rust strings are `String` / `List Char`; byte-level behaviour of the
  external crates (`hex`, `num_bigint`) is reproduced at the char level,
  which is observably equivalent here because every byte of a non-ASCII
  char is rejected by both decoders exactly when the char itself is.
* arkworks field elements (`Fq`, `Fr`) are canonical residues: natural
  numbers below the field characteristic.  `from_be_bytes_mod_order`
  composed with `BigUint::to_bytes_be` is the map `n ↦ n % modulus`.
* Affine points are an inductive: either the designated identity value
  (`G1Affine::identity()` / `G2Affine::identity()`, which carry the
  infinity flag) or an unchecked coordinate pair (`new_unchecked`).
* Fallible Rust code returns `Except ProofParseError _`; a possible Rust
  panic (out-of-bounds slice indexing) is the outer `Option`, with `none`
  meaning the call panics.
-/

/-- BN254 base-field characteristic (the modulus of `ark_bn254::Fq`). -/
def fqModulus : Nat :=
  21888242871839275222246405745257275088696311157297823662689037894645226208583

/-- BN254 scalar-field characteristic (the modulus of `ark_bn254::Fr`). -/
def frModulus : Nat :=
  21888242871839275222246405745257275088548364400416034343698204186575808495617

/-- The double-quote character, written via its code point. -/
def quoteChar : Char := Char.ofNat 34

/-- Rust `str::trim_matches('"')`: repeatedly remove the quote char from
both ends of the string. -/
def trimQuotes (l : List Char) : List Char :=
  (((l.dropWhile fun c => c = quoteChar).reverse.dropWhile
      fun c => c = quoteChar)).reverse

/-- Is `c` an ASCII hex digit (accepted by `hex::decode`)? -/
def isHexDigit (c : Char) : Bool :=
  c.isDigit || (('a' ≤ c) && (c ≤ 'f')) || (('A' ≤ c) && (c ≤ 'F'))

/-- Numeric value of an ASCII hex digit. -/
def hexDigitVal (c : Char) : Nat :=
  if c.isDigit then c.toNat - '0'.toNat
  else if ('a' ≤ c) && (c ≤ 'f') then c.toNat - 'a'.toNat + 10
  else c.toNat - 'A'.toNat + 10

/-- `hex::decode` followed by big-endian byte interpretation: succeeds on
even-length strings of hex digits (the empty string included, giving 0)
and yields the base-16 value; odd length or a non-hex char is a failure. -/
def hexVal (l : List Char) : Option Nat :=
  if l.length % 2 = 0 && l.all isHexDigit then
    some (l.foldl (fun a c => a * 16 + hexDigitVal c) 0)
  else
    none

/-- One step of `num_bigint`'s decimal accumulator: digits accumulate
base 10, underscores are skipped. -/
def decStep (a : Nat) (c : Char) : Nat :=
  if c = '_' then a else a * 10 + (c.toNat - '0'.toNat)

/-- The leading-plus strip of `num_bigint::BigUint::from_str_radix`:
remove one leading `+` unless a second `+` follows it. -/
def plusStrip (l : List Char) : List Char :=
  match l with
  | [] => []
  | c :: rest =>
    if c = '+' then
      if rest.head? = some '+' then c :: rest else rest
    else c :: rest

/-- `num_bigint::BigUint::from_str` (radix 10): strip a single leading
`+` unless a second `+` follows, reject the empty string and a leading
underscore, accept decimal digits with embedded underscores skipped. -/
def decVal (l : List Char) : Option Nat :=
  match plusStrip l with
  | [] => none
  | c :: rest =>
    if c = '_' then none
    else if (c :: rest).all (fun d => d.isDigit || d = '_') then
      some ((c :: rest).foldl decStep 0)
    else none

/-- The hex arm of the field decoders: if the string starts with `0x` or
`0X` (Rust `starts_with`), attempt `hex::decode` on the remainder; `none`
means either no such prefix or a hex failure (both fall through to the
decimal attempt). -/
def hexArm (t : List Char) : Option Nat :=
  match t with
  | c0 :: c1 :: rest =>
    if c0 = '0' && (c1 = 'x' || c1 = 'X') then hexVal rest else none
  | _ => none

/-- The dual-format big-integer dispatch shared by `parse_fq_element`
and `parse_fr_element` (after quote-trimming): hex arm first, then the
decimal attempt on the whole trimmed string. -/
def decodeBig (t : List Char) : Option Nat :=
  match hexArm t with
  | some n => some n
  | none => decVal t

/-- `ProofParseError` from the verifier crate. -/
inductive ProofParseError where
  | invalidPiALength (expected got : Nat)
  | invalidPiBLength (expected got : Nat)
  | invalidPiCLength (expected got : Nat)
  | invalidFieldElement (s : String)
  | invalidG2Format (s : String)
  | jsonParseError (s : String)
  | invalidPoint (s : String)
deriving DecidableEq, Repr

/-- `parse_fq_element` on the char list of the input string: trim quotes,
try the hex arm, then decimal, reduce mod the base-field characteristic;
on failure the error carries the (trimmed) string `s` as the Rust code
rebinds it. -/
def parseFqChars (l : List Char) : Except ProofParseError Nat :=
  match decodeBig (trimQuotes l) with
  | some n => .ok (n % fqModulus)
  | none => .error (.invalidFieldElement (String.mk (trimQuotes l)))

/-- `parse_fr_element` on the char list: same as `parseFqChars` with the
scalar-field characteristic. -/
def parseFrChars (l : List Char) : Except ProofParseError Nat :=
  match decodeBig (trimQuotes l) with
  | some n => .ok (n % frModulus)
  | none => .error (.invalidFieldElement (String.mk (trimQuotes l)))

/-- `parse_fq_element : &str -> Result<Fq, ProofParseError>`. -/
def parse_fq_element (s : String) : Except ProofParseError Nat :=
  parseFqChars s.data

/-- `parse_fr_element : &str -> Result<Fr, ProofParseError>`. -/
def parse_fr_element (s : String) : Except ProofParseError Nat :=
  parseFrChars s.data

/-- `ark_bn254::G1Affine`: the identity value (infinity flag set) or an
unchecked affine coordinate pair. -/
inductive G1Affine where
  | identity
  | point (x y : Nat)
deriving DecidableEq, Repr

/-- `ark_bn254::G2Affine`: the identity value or an unchecked pair of
`Fq2` coordinates `x = (x0, x1)`, `y = (y0, y1)`. -/
inductive G2Affine where
  | identity
  | point (x0 x1 y0 y1 : Nat)
deriving DecidableEq, Repr

/-- `parse_g1_point`: decode both coordinates; if both are the zero field
element return the group identity, otherwise `new_unchecked`. -/
def parse_g1_point (xs ys : String) : Except ProofParseError G1Affine :=
  match parse_fq_element xs with
  | .error e => .error e
  | .ok x =>
    match parse_fq_element ys with
    | .error e => .error e
    | .ok y =>
      if x = 0 && y = 0 then .ok .identity
      else .ok (.point x y)

/-- `parse_g2_point`: index `coords[0][0]`, `coords[0][1]`, `coords[1][0]`,
`coords[1][1]` in that order, decoding each before the next index; an
out-of-bounds index is a Rust panic, modelled as `none`.  If both `Fq2`
coordinates are zero return the identity, else `new_unchecked`. -/
def parse_g2_point (coords : List (List String)) :
    Option (Except ProofParseError G2Affine) :=
  match coords.get? 0 with
  | none => none
  | some r0 =>
    match r0.get? 0 with
    | none => none
    | some s00 =>
      match parse_fq_element s00 with
      | .error e => some (.error e)
      | .ok c0x =>
        match r0.get? 1 with
        | none => none
        | some s01 =>
          match parse_fq_element s01 with
          | .error e => some (.error e)
          | .ok c1x =>
            match coords.get? 1 with
            | none => none
            | some r1 =>
              match r1.get? 0 with
              | none => none
              | some s10 =>
                match parse_fq_element s10 with
                | .error e => some (.error e)
                | .ok c0y =>
                  match r1.get? 1 with
                  | none => none
                  | some s11 =>
                    match parse_fq_element s11 with
                    | .error e => some (.error e)
                    | .ok c1y =>
                      if c0x = 0 && c1x = 0 && c0y = 0 && c1y = 0 then
                        some (.ok .identity)
                      else
                        some (.ok (.point c0x c1x c0y c1y))

/-- `SnarkJSProof`, the raw wire shape. -/
structure SnarkJSProof where
  pi_a : List String
  pi_b : List (List String)
  pi_c : List String
  public_signals : List String
deriving DecidableEq, Repr

/-- `ParsedProof`, the structured result. -/
structure ParsedProof where
  pi_a : G1Affine
  pi_b : G2Affine
  pi_c : G1Affine
  public_inputs : List Nat
deriving DecidableEq, Repr

/-- `iter().map(parse_fr_element).collect::<Result<Vec<Fr>, _>>()`:
first error wins, order preserved. -/
def parseFrList (ss : List String) : Except ProofParseError (List Nat) :=
  match ss with
  | [] => .ok []
  | s :: rest =>
    match parse_fr_element s with
    | .error e => .error e
    | .ok v =>
      match parseFrList rest with
      | .error e => .error e
      | .ok vs => .ok (v :: vs)

/-- `SnarkJSProof::to_arkworks_proof`: the three length checks in order,
then `pi_a`, `pi_b`, `pi_c`, then the public signals.  The outer `Option`
is `none` exactly when the Rust code panics (only possible through the
unchecked inner indexing in `parse_g2_point`). -/
def to_arkworks_proof (p : SnarkJSProof) :
    Option (Except ProofParseError ParsedProof) :=
  if p.pi_a.length ≠ 2 then
    some (.error (.invalidPiALength 2 p.pi_a.length))
  else if p.pi_b.length ≠ 2 then
    some (.error (.invalidPiBLength 2 p.pi_b.length))
  else if p.pi_c.length ≠ 2 then
    some (.error (.invalidPiCLength 2 p.pi_c.length))
  else
    match p.pi_a.get? 0, p.pi_a.get? 1 with
    | some a0, some a1 =>
      (match parse_g1_point a0 a1 with
      | .error e => some (.error e)
      | .ok pa =>
        match parse_g2_point p.pi_b with
        | none => none
        | some (.error e) => some (.error e)
        | some (.ok pb) =>
          match p.pi_c.get? 0, p.pi_c.get? 1 with
          | some c0, some c1 =>
            (match parse_g1_point c0 c1 with
            | .error e => some (.error e)
            | .ok pc =>
              match parseFrList p.public_signals with
              | .error e => some (.error e)
              | .ok vs => some (.ok ⟨pa, pb, pc, vs⟩))
          | _, _ => none)
    | _, _ => none

/-- `create_dummy_proof` from the crate. -/
def create_dummy_proof : SnarkJSProof :=
  { pi_a := ["1", "2"]
    pi_b := [["1", "0"], ["2", "0"]]
    pi_c := ["3", "4"]
    public_signals := ["208"] }

instance {ε α : Type} [DecidableEq ε] [DecidableEq α] :
    DecidableEq (Except ε α) := fun x y =>
  match x, y with
  | .error a, .error b =>
    if h : a = b then .isTrue (congrArg Except.error h)
    else .isFalse (fun hc => h (Except.error.inj hc))
  | .ok a, .ok b =>
    if h : a = b then .isTrue (congrArg Except.ok h)
    else .isFalse (fun hc => h (Except.ok.inj hc))
  | .error _, .ok _ => .isFalse (fun hc => Except.noConfusion hc)
  | .ok _, .error _ => .isFalse (fun hc => Except.noConfusion hc)

/-- A JSON value, the `serde_json::Value` shape needed here. -/
inductive Json where
  | null
  | bool (b : Bool)
  | num (n : Int)
  | str (s : String)
  | arr (xs : List Json)
  | obj (fields : List (String × Json))

/-- Serde serialization of `SnarkJSProof` to a JSON value: the struct
fields in declaration order, with the `publicSignals` wire rename. -/
def serializeProof (p : SnarkJSProof) : Json :=
  .obj [("pi_a", .arr (p.pi_a.map .str)),
        ("pi_b", .arr (p.pi_b.map fun r => .arr (r.map .str))),
        ("pi_c", .arr (p.pi_c.map .str)),
        ("publicSignals", .arr (p.public_signals.map .str))]

/-- Decode a JSON value as a string. -/
def jsonAsStr (j : Json) : Option String :=
  match j with
  | .str s => some s
  | _ => none

/-- Decode a list of JSON values as strings, failing on the first
non-string. -/
def jsonStrSeq (xs : List Json) : Option (List String) :=
  match xs with
  | [] => some []
  | j :: rest =>
    match jsonAsStr j with
    | none => none
    | some s =>
      match jsonStrSeq rest with
      | none => none
      | some t => some (s :: t)

/-- Decode a JSON value as an array of strings. -/
def jsonAsStrList (j : Json) : Option (List String) :=
  match j with
  | .arr xs => jsonStrSeq xs
  | _ => none

/-- Decode a list of JSON values as arrays of strings. -/
def jsonStrListSeq (xs : List Json) : Option (List (List String)) :=
  match xs with
  | [] => some []
  | j :: rest =>
    match jsonAsStrList j with
    | none => none
    | some r =>
      match jsonStrListSeq rest with
      | none => none
      | some t => some (r :: t)

/-- Decode a JSON value as an array of arrays of strings. -/
def jsonAsStrListList (j : Json) : Option (List (List String)) :=
  match j with
  | .arr xs => jsonStrListSeq xs
  | _ => none

/-- Serde deserialization of `SnarkJSProof` from a JSON value: an object
with the four required fields (`public_signals` read from the wire key
`publicSignals`); unknown fields are ignored, as by the derived serde
deserializer. -/
def deserializeProof (j : Json) : Option SnarkJSProof :=
  match j with
  | .obj fields =>
    match fields.lookup "pi_a" with
    | none => none
    | some ja =>
      match jsonAsStrList ja with
      | none => none
      | some a =>
        match fields.lookup "pi_b" with
        | none => none
        | some jb =>
          match jsonAsStrListList jb with
          | none => none
          | some b =>
            match fields.lookup "pi_c" with
            | none => none
            | some jc =>
              match jsonAsStrList jc with
              | none => none
              | some c =>
                match fields.lookup "publicSignals" with
                | none => none
                | some js =>
                  match jsonAsStrList js with
                  | none => none
                  | some s => some ⟨a, b, c, s⟩
  | _ => none

/-- The keys of a serialized object, in order. -/
def jsonObjKeys (j : Json) : List String :=
  match j with
  | .obj fields => fields.map Prod.fst
  | _ => []

/-! ### Hexadecimal representation of a natural number -/

/-- The hex digit char for a value below 16, uppercase letters. -/
def hexDigitChar (d : Nat) : Char :=
  if d < 10 then Char.ofNat ('0'.toNat + d) else Char.ofNat ('A'.toNat + d - 10)

/-- The minimal (unpadded) big-endian hexadecimal digit string of `n`. -/
def hexDigits (n : Nat) : List Char :=
  if h : n < 16 then [hexDigitChar n]
  else hexDigits (n / 16) ++ [hexDigitChar (n % 16)]
decreasing_by
  exact Nat.div_lt_self (by omega) (by omega)

/-! ### Concrete proofs used as claim inputs -/

/-- A shape-valid raw proof whose coordinate strings are all zero. -/
def allZeroProof : SnarkJSProof :=
  { pi_a := ["0", "0"]
    pi_b := [["0", "0"], ["0", "0"]]
    pi_c := ["0", "0"]
    public_signals := [] }

/-- A raw proof whose outer arrays all have length 2 but whose first
inner `pi_b` row has only one element. -/
def shortPiBRowProof : SnarkJSProof :=
  { pi_a := ["0", "0"]
    pi_b := [["0"], ["0", "0"]]
    pi_c := ["0", "0"]
    public_signals := [] }

/-! ### Helper lemmas about quote trimming -/

theorem quote_not_digit : (quoteChar.isDigit || quoteChar = '_') = false := by
  decide

theorem trimQuotes_quote_head (l : List Char) :
    trimQuotes (quoteChar :: l) = trimQuotes l := by
  simp [trimQuotes]

theorem trimQuotes_quote_last (l : List Char) :
    trimQuotes (l ++ [quoteChar]) = trimQuotes l := by
  induction l with
  | nil => rfl
  | cons c t ih =>
    by_cases hc : c = quoteChar
    · subst hc
      rw [List.cons_append, trimQuotes_quote_head, trimQuotes_quote_head, ih]
    · unfold trimQuotes
      rw [List.cons_append,
        List.dropWhile_cons_of_neg (p := fun x => decide (x = quoteChar))
          (by simp [hc]),
        List.dropWhile_cons_of_neg (p := fun x => decide (x = quoteChar))
          (by simp [hc])]
      simp only [List.reverse_cons, List.reverse_append,
        List.reverse_singleton, List.reverse_nil, List.nil_append,
        List.singleton_append, List.cons_append]
      rw [List.dropWhile_cons_of_pos (by simp)]

theorem dropWhile_quote_eq_self {l : List Char}
    (h : ∀ c ∈ l, c ≠ quoteChar) :
    (l.dropWhile fun c => c = quoteChar) = l := by
  cases l with
  | nil => rfl
  | cons c t =>
    exact List.dropWhile_cons_of_neg (by simp [h c (List.mem_cons_self c t)])

theorem trimQuotes_eq_self {l : List Char}
    (h : ∀ c ∈ l, c ≠ quoteChar) :
    trimQuotes l = l := by
  unfold trimQuotes
  rw [dropWhile_quote_eq_self h, dropWhile_quote_eq_self
    (fun c hc => h c (List.mem_reverse.mp hc)), List.reverse_reverse]

theorem parseFqChars_congr {l₁ l₂ : List Char}
    (h : trimQuotes l₁ = trimQuotes l₂) :
    parseFqChars l₁ = parseFqChars l₂ := by
  simp only [parseFqChars, h]

theorem parseFrChars_congr {l₁ l₂ : List Char}
    (h : trimQuotes l₁ = trimQuotes l₂) :
    parseFrChars l₁ = parseFrChars l₂ := by
  simp only [parseFrChars, h]

theorem hexDigitChar_isHex : ∀ d, d < 16 → isHexDigit (hexDigitChar d) = true := by
  decide

theorem hexDigitChar_val : ∀ d, d < 16 → hexDigitVal (hexDigitChar d) = d := by
  decide

theorem isHexDigit_ne_quote {c : Char} (h : isHexDigit c = true) :
    c ≠ quoteChar := by
  intro hc
  rw [hc] at h
  exact absurd h (by decide)

theorem hexDigits_all_hex (n : Nat) : ∀ c ∈ hexDigits n, isHexDigit c = true := by
  induction n using Nat.strong_induction_on with
  | _ n ih =>
    intro c hc
    rw [hexDigits] at hc
    by_cases h : n < 16
    · simp only [dif_pos h, List.mem_singleton] at hc
      rw [hc]
      exact hexDigitChar_isHex n h
    · simp only [dif_neg h, List.mem_append, List.mem_singleton] at hc
      rcases hc with hc | hc
      · exact ih (n / 16) (Nat.div_lt_self (by omega) (by omega)) c hc
      · rw [hc]
        exact hexDigitChar_isHex (n % 16) (Nat.mod_lt n (by omega))

theorem hexDigits_foldl_go (n : Nat) : ∀ a : Nat,
    (hexDigits n).foldl (fun acc c => acc * 16 + hexDigitVal c) a =
      a * 16 ^ (hexDigits n).length + n := by
  induction n using Nat.strong_induction_on with
  | _ n ih =>
    intro a
    rw [hexDigits]
    by_cases h : n < 16
    · simp only [dif_pos h, List.foldl_cons, List.foldl_nil,
        List.length_singleton, pow_one]
      rw [hexDigitChar_val n h]
    · simp only [dif_neg h, List.foldl_append, List.foldl_cons,
        List.foldl_nil, List.length_append, List.length_singleton]
      rw [ih (n / 16) (Nat.div_lt_self (by omega) (by omega)) a,
        hexDigitChar_val (n % 16) (Nat.mod_lt n (by omega))]
      have hpow : 16 ^ ((hexDigits (n / 16)).length + 1) =
          16 ^ (hexDigits (n / 16)).length * 16 := pow_succ 16 _
      have hdm : n / 16 * 16 + n % 16 = n := by omega
      ring_nf
      omega

theorem hexDigits_foldl (n : Nat) :
    (hexDigits n).foldl (fun acc c => acc * 16 + hexDigitVal c) 0 = n := by
  have h := hexDigits_foldl_go n 0
  simpa using h

theorem hexVal_hexDigits {n : Nat} (h : (hexDigits n).length % 2 = 0) :
    hexVal (hexDigits n) = some n := by
  unfold hexVal
  rw [if_pos, hexDigits_foldl]
  rw [Bool.and_eq_true, List.all_eq_true]
  exact ⟨by simp [h], fun c hc => hexDigits_all_hex n c hc⟩

/-! ### Interaction of the decimal and hex arms -/

theorem plusStrip_eq_self {l : List Char} (h : l.head? ≠ some '+') :
    plusStrip l = l := by
  cases l with
  | nil => rfl
  | cons c rest =>
    show (if c = '+' then
        if rest.head? = some '+' then c :: rest else rest
      else c :: rest) = c :: rest
    rw [if_neg]
    intro hc
    exact h (by rw [hc]; rfl)

theorem decVal_all_digits {l : List Char} {n : Nat} (h : decVal l = some n) :
    (plusStrip l).all (fun d => d.isDigit || d = '_') = true := by
  unfold decVal at h
  split at h
  · exact absurd h (by simp)
  · rename_i c rest heq
    rw [heq]
    split at h
    · exact absurd h (by simp)
    · split at h
      · assumption
      · exact absurd h (by simp)

theorem decVal_hexArm_none {t : List Char} {n : Nat}
    (h : decVal t = some n) : hexArm t = none := by
  match t with
  | [] => rfl
  | [c] => rfl
  | c0 :: c1 :: rest =>
    show (if c0 = '0' && (c1 = 'x' || c1 = 'X') then hexVal rest else none) =
      none
    rw [if_neg]
    simp only [Bool.and_eq_true, Bool.or_eq_true, decide_eq_true_eq]
    rintro ⟨h0, h1⟩
    subst h0
    have hps : plusStrip ('0' :: c1 :: rest) = '0' :: c1 :: rest :=
      plusStrip_eq_self (by simp)
    have hall := decVal_all_digits h
    rw [hps] at hall
    simp only [List.all_cons, Bool.and_eq_true] at hall
    rcases h1 with h1 | h1 <;> subst h1 <;>
      exact absurd hall.2.1 (by decide)

/-! ### Characterizations of the field-element decoders -/

theorem fqModulus_pos : 0 < fqModulus := by
  unfold fqModulus
  omega

theorem frModulus_pos : 0 < frModulus := by
  unfold frModulus
  omega

theorem parseFqChars_eq_of_decode {l : List Char} {n : Nat}
    (h : decodeBig (trimQuotes l) = some n) :
    parseFqChars l = .ok (n % fqModulus) := by
  unfold parseFqChars
  rw [h]

theorem parseFrChars_eq_of_decode {l : List Char} {n : Nat}
    (h : decodeBig (trimQuotes l) = some n) :
    parseFrChars l = .ok (n % frModulus) := by
  unfold parseFrChars
  rw [h]

theorem parseFqChars_ok_lt {l : List Char} {n : Nat}
    (h : parseFqChars l = .ok n) : n < fqModulus := by
  unfold parseFqChars at h
  cases hd : decodeBig (trimQuotes l) with
  | none => rw [hd] at h; exact absurd h (by simp)
  | some m =>
    rw [hd] at h
    have : m % fqModulus = n := by
      have := Except.ok.inj h
      exact this
    rw [← this]
    exact Nat.mod_lt m fqModulus_pos

theorem parseFrChars_ok_lt {l : List Char} {n : Nat}
    (h : parseFrChars l = .ok n) : n < frModulus := by
  unfold parseFrChars at h
  cases hd : decodeBig (trimQuotes l) with
  | none => rw [hd] at h; exact absurd h (by simp)
  | some m =>
    rw [hd] at h
    have : m % frModulus = n := by
      have := Except.ok.inj h
      exact this
    rw [← this]
    exact Nat.mod_lt m frModulus_pos

theorem parseFqChars_error_iff {l : List Char} {e : ProofParseError} :
    parseFqChars l = .error e ↔
      (decodeBig (trimQuotes l) = none ∧
        e = .invalidFieldElement (String.mk (trimQuotes l))) := by
  unfold parseFqChars
  cases hd : decodeBig (trimQuotes l) with
  | none => simp [eq_comm]
  | some m => simp

theorem parseFrChars_error_iff {l : List Char} {e : ProofParseError} :
    parseFrChars l = .error e ↔
      (decodeBig (trimQuotes l) = none ∧
        e = .invalidFieldElement (String.mk (trimQuotes l))) := by
  unfold parseFrChars
  cases hd : decodeBig (trimQuotes l) with
  | none => simp [eq_comm]
  | some m => simp

/-! ### The ordered public-signal traversal -/

theorem parseFrList_ok_length {ss : List String} {vs : List Nat}
    (h : parseFrList ss = .ok vs) : vs.length = ss.length := by
  induction ss generalizing vs with
  | nil =>
    unfold parseFrList at h
    simp only [Except.ok.injEq] at h
    rw [← h]
    rfl
  | cons s rest ih =>
    unfold parseFrList at h
    cases h1 : parse_fr_element s with
    | error e => rw [h1] at h; exact absurd h (by simp)
    | ok v =>
      rw [h1] at h
      cases h2 : parseFrList rest with
      | error e => rw [h2] at h; exact absurd h (by simp)
      | ok ws =>
        rw [h2] at h
        simp only [Except.ok.injEq] at h
        rw [← h]
        simp [ih h2]

theorem parseFrList_ok_get {ss : List String} {vs : List Nat}
    (h : parseFrList ss = .ok vs) :
    ∀ i s, ss.get? i = some s →
      ∃ v, vs.get? i = some v ∧ parse_fr_element s = .ok v := by
  induction ss generalizing vs with
  | nil =>
    intro i s hs
    exact absurd hs (by simp)
  | cons s0 rest ih =>
    intro i s hs
    unfold parseFrList at h
    cases h1 : parse_fr_element s0 with
    | error e => rw [h1] at h; exact absurd h (by simp)
    | ok v =>
      rw [h1] at h
      cases h2 : parseFrList rest with
      | error e => rw [h2] at h; exact absurd h (by simp)
      | ok ws =>
        rw [h2] at h
        simp only [Except.ok.injEq] at h
        cases i with
        | zero =>
          simp only [List.get?_cons_zero, Option.some.injEq] at hs
          refine ⟨v, ?_, ?_⟩
          · rw [← h]; rfl
          · rw [← hs]; exact h1
        | succ j =>
          simp only [List.get?_cons_succ] at hs
          obtain ⟨w, hw, hp⟩ := ih h2 j s hs
          refine ⟨w, ?_, hp⟩
          rw [← h]
          simpa using hw

/-! ### Round-trip lemmas for the wire codec -/

theorem jsonStrSeq_roundtrip (l : List String) :
    jsonStrSeq (l.map .str) = some l := by
  induction l with
  | nil => rfl
  | cons s rest ih =>
    unfold jsonStrSeq
    simp only [List.map_cons]
    rw [show jsonAsStr (.str s) = some s from rfl, ih]

theorem jsonAsStrList_roundtrip (l : List String) :
    jsonAsStrList (.arr (l.map .str)) = some l := by
  show jsonStrSeq (l.map .str) = some l
  exact jsonStrSeq_roundtrip l

theorem jsonStrListSeq_roundtrip (l : List (List String)) :
    jsonStrListSeq (l.map fun r => .arr (r.map .str)) = some l := by
  induction l with
  | nil => rfl
  | cons r rest ih =>
    simp only [List.map_cons, jsonStrListSeq]
    rw [jsonAsStrList_roundtrip, ih]

theorem jsonAsStrListList_roundtrip (l : List (List String)) :
    jsonAsStrListList (.arr (l.map fun r => .arr (r.map .str))) = some l := by
  show jsonStrListSeq (l.map fun r => .arr (r.map .str)) = some l
  exact jsonStrListSeq_roundtrip l

/-! ### Claim theorems -/

/-- C10: the input string `0x` (hex prefix with no digits) is accepted by
both field decoders and decodes to the zero field element, while the empty
string is rejected with `InvalidFieldElement`; consequently a coordinate
written as `0x` counts as zero for the point-at-infinity short-circuit. -/
theorem C10_hex_prefix_alone_is_zero :
    parse_fq_element "0x" = .ok 0 ∧ parse_fr_element "0x" = .ok 0 ∧
    parse_fq_element "0X" = .ok 0 ∧ parse_fr_element "0X" = .ok 0 ∧
    parse_fq_element "" = .error (.invalidFieldElement "") ∧
    parse_fr_element "" = .error (.invalidFieldElement "") ∧
    parse_g1_point "0x" "0x" = .ok .identity :=
  ⟨rfl, rfl, rfl, rfl, rfl, rfl, rfl⟩

/-- C2 (failing-input evaluation): on a raw proof whose outer arrays all
have length 2 but whose first `pi_b` row has a single element, the code
panics (out-of-bounds indexing, modelled by `none`) instead of returning
`InvalidG2Format`; the `InvalidG2Format` variant is never constructed
anywhere in the crate. -/
theorem C2_short_inner_row_panics :
    to_arkworks_proof shortPiBRowProof = none := rfl

/-- C1: `to_arkworks_proof` validates the three outer array lengths
first, in the order `pi_a`, `pi_b`, `pi_c`, and returns the matching
length error with `expected = 2` and the actual length; the result is
fully determined by the lengths alone, for arbitrary (even undecodable)
coordinate strings, so no field decoding or point construction happens
unless all three checks pass. -/
theorem C1_length_checks_first : ∀ p : SnarkJSProof,
    (p.pi_a.length ≠ 2 →
      to_arkworks_proof p = some (.error (.invalidPiALength 2 p.pi_a.length))) ∧
    (p.pi_a.length = 2 → p.pi_b.length ≠ 2 →
      to_arkworks_proof p = some (.error (.invalidPiBLength 2 p.pi_b.length))) ∧
    (p.pi_a.length = 2 → p.pi_b.length = 2 → p.pi_c.length ≠ 2 →
      to_arkworks_proof p = some (.error (.invalidPiCLength 2 p.pi_c.length))) := by
  intro p
  refine ⟨fun h => ?_, fun h1 h2 => ?_, fun h1 h2 h3 => ?_⟩
  · unfold to_arkworks_proof
    rw [if_pos h]
  · unfold to_arkworks_proof
    rw [if_neg (not_ne_iff.mpr h1), if_pos h2]
  · unfold to_arkworks_proof
    rw [if_neg (not_ne_iff.mpr h1), if_neg (not_ne_iff.mpr h2), if_pos h3]

/-- C1 witness: concrete undecodable strings still produce the length
errors, with `got` equal to 1 and 3 for `pi_a`, and the `pi_b`/`pi_c`
checks firing in order. -/
theorem C1_length_checks_first_witness :
    to_arkworks_proof ⟨["z"], [], [], []⟩ =
      some (.error (.invalidPiALength 2 1)) ∧
    to_arkworks_proof ⟨["z", "z", "z"], [], [], []⟩ =
      some (.error (.invalidPiALength 2 3)) ∧
    to_arkworks_proof ⟨["z", "z"], [["z", "z"]], [], []⟩ =
      some (.error (.invalidPiBLength 2 1)) ∧
    to_arkworks_proof ⟨["z", "z"], [["z"], ["z"]], ["z"], []⟩ =
      some (.error (.invalidPiCLength 2 1)) :=
  ⟨(C1_length_checks_first _).1 (by decide),
   (C1_length_checks_first _).1 (by decide),
   (C1_length_checks_first _).2.1 rfl (by decide),
   (C1_length_checks_first _).2.2 rfl rfl (by decide)⟩

/-- C3: whenever both decoded coordinates of a `G1` point are the zero
field element the builder returns the group identity with no further
check; same for the four `G2` extension coordinates; and the all-`"0"`
raw proof parses into three identity points with no error. -/
theorem C3_zero_coords_give_identity :
    (∀ sx sy, parse_fq_element sx = .ok 0 → parse_fq_element sy = .ok 0 →
      parse_g1_point sx sy = .ok .identity) ∧
    (∀ s00 s01 s10 s11,
      parse_fq_element s00 = .ok 0 → parse_fq_element s01 = .ok 0 →
      parse_fq_element s10 = .ok 0 → parse_fq_element s11 = .ok 0 →
      parse_g2_point [[s00, s01], [s10, s11]] = some (.ok .identity)) ∧
    to_arkworks_proof allZeroProof =
      some (.ok ⟨.identity, .identity, .identity, []⟩) := by
  refine ⟨?_, ?_, rfl⟩
  · intro sx sy hx hy
    unfold parse_g1_point
    rw [hx, hy]
    rfl
  · intro s00 s01 s10 s11 h00 h01 h10 h11
    unfold parse_g2_point
    simp only [List.get?_cons_zero, List.get?_cons_succ]
    rw [h00, h01, h10, h11]
    rfl

/-- C3 witness: the literal `"0"` strings decode to zero and produce the
identity points. -/
theorem C3_zero_coords_give_identity_witness :
    parse_g1_point "0" "0" = .ok .identity ∧
    parse_g2_point [["0", "0"], ["0", "0"]] = some (.ok .identity) :=
  ⟨C3_zero_coords_give_identity.1 "0" "0" rfl rfl,
   C3_zero_coords_give_identity.2.1 "0" "0" "0" "0" rfl rfl rfl rfl⟩

/-- The decimal arm succeeding forces the whole dispatch to succeed with
the same value (the hex arm cannot also apply). -/
theorem decodeBig_of_decVal {t : List Char} {n : Nat}
    (h : decVal t = some n) : decodeBig t = some n := by
  unfold decodeBig
  rw [decVal_hexArm_none h]
  exact h

/-- C4: every field element produced by the decoders is the decoded
integer reduced modulo the respective characteristic (hence lies in
`[0, modulus)`); inputs denoting an integer below the modulus decode to
exactly that integer, and overflowing inputs alias to their residue
instead of failing. -/
theorem C4_canonical_residues :
    (∀ s n, parse_fq_element s = .ok n → n < fqModulus) ∧
    (∀ s n, parse_fr_element s = .ok n → n < frModulus) ∧
    (∀ s n, decodeBig (trimQuotes s.data) = some n →
      parse_fq_element s = .ok (n % fqModulus) ∧
      parse_fr_element s = .ok (n % frModulus)) ∧
    (∀ s n, decodeBig (trimQuotes s.data) = some n → n < fqModulus →
      parse_fq_element s = .ok n) ∧
    (∀ s n, decodeBig (trimQuotes s.data) = some n → n < frModulus →
      parse_fr_element s = .ok n) := by
  refine ⟨fun s n h => parseFqChars_ok_lt h,
    fun s n h => parseFrChars_ok_lt h,
    fun s n h => ⟨parseFqChars_eq_of_decode h, parseFrChars_eq_of_decode h⟩,
    fun s n h hlt => ?_, fun s n h hlt => ?_⟩
  · have := parseFqChars_eq_of_decode h
    rw [Nat.mod_eq_of_lt hlt] at this
    exact this
  · have := parseFrChars_eq_of_decode h
    rw [Nat.mod_eq_of_lt hlt] at this
    exact this

set_option maxRecDepth 8000 in
/-- C4 witness: `"208"` decodes below both moduli to exactly 208, and an
input equal to the scalar modulus itself aliases to its residue 0. -/
theorem C4_canonical_residues_witness :
    parse_fr_element "208" = .ok 208 ∧ (208 : Nat) < frModulus ∧
    parse_fr_element
      "21888242871839275222246405745257275088548364400416034343698204186575808495617" =
      .ok (frModulus % frModulus) :=
  ⟨C4_canonical_residues.2.2.2.2 "208" 208 rfl (by decide),
   C4_canonical_residues.2.1 "208" 208 rfl,
   (C4_canonical_residues.2.2.1
      "21888242871839275222246405745257275088548364400416034343698204186575808495617"
      frModulus (by rfl)).2⟩

/-- C5 counterexample: for `n = 5` (decimal string `"5"`), the
hexadecimal representation is the single digit `5`, and `"0x5"` is
rejected (odd-length hex, and the decimal fallback cannot parse `0x5`),
so decimal/hex equivalence fails for the unpadded hex representation. -/
theorem C5_decimal_hex_counterexample :
    hexDigits 5 = ['5'] ∧ parse_fr_element "5" = .ok 5 ∧
    parse_fr_element "0x5" = .error (.invalidFieldElement "0x5") ∧
    parse_fr_element "5" ≠ parse_fr_element "0x5" := by
  refine ⟨?_, rfl, rfl, by decide⟩
  unfold hexDigits
  rfl

/-- C5 (amended): for every string that the decimal arm decodes to `n`,
and whenever the hexadecimal representation of `n` has an even number of
digits (as `hex::decode` requires), the decimal string and the
`0x`-prefixed hex string reduce to the same field element, in the
scalar-field decoder and in the base-field decoder alike. -/
theorem C5_decimal_hex_equivalence : ∀ (s : String) (n : Nat),
    decVal (trimQuotes s.data) = some n →
    (hexDigits n).length % 2 = 0 →
    (parse_fr_element s = .ok (n % frModulus) ∧
      parse_fr_element (String.mk ('0' :: 'x' :: hexDigits n)) =
        .ok (n % frModulus)) ∧
    (parse_fq_element s = .ok (n % fqModulus) ∧
      parse_fq_element (String.mk ('0' :: 'x' :: hexDigits n)) =
        .ok (n % fqModulus)) := by
  intro s n hdec heven
  have hself : trimQuotes ('0' :: 'x' :: hexDigits n) =
      '0' :: 'x' :: hexDigits n := by
    apply trimQuotes_eq_self
    intro c hc
    simp only [List.mem_cons] at hc
    rcases hc with rfl | hc
    · decide
    rcases hc with rfl | hc
    · decide
    · exact isHexDigit_ne_quote (hexDigits_all_hex n c hc)
  have harm : hexArm ('0' :: 'x' :: hexDigits n) = some n := by
    show (if ('0' : Char) = '0' && (('x' : Char) = 'x' || ('x' : Char) = 'X')
        then hexVal (hexDigits n) else none) = some n
    rw [if_pos (by decide), hexVal_hexDigits heven]
  have hdecode : decodeBig (trimQuotes ('0' :: 'x' :: hexDigits n)) =
      some n := by
    rw [hself]
    unfold decodeBig
    rw [harm]
  exact ⟨⟨parseFrChars_eq_of_decode (decodeBig_of_decVal hdec),
      parseFrChars_eq_of_decode hdecode⟩,
    ⟨parseFqChars_eq_of_decode (decodeBig_of_decVal hdec),
      parseFqChars_eq_of_decode hdecode⟩⟩

/-- C5 witness: `"208"` and `"0xD0"` (the even-length hex representation
of 208) reduce to the same element in both the scalar-field and the
base-field decoder. -/
theorem C5_decimal_hex_equivalence_witness :
    (parse_fr_element "208" = .ok (208 % frModulus) ∧
      parse_fr_element (String.mk ('0' :: 'x' :: hexDigits 208)) =
        .ok (208 % frModulus)) ∧
    (parse_fq_element "208" = .ok (208 % fqModulus) ∧
      parse_fq_element (String.mk ('0' :: 'x' :: hexDigits 208)) =
        .ok (208 % fqModulus)) :=
  C5_decimal_hex_equivalence "208" 208 rfl
    (by unfold hexDigits; norm_num; unfold hexDigits; rfl)

/-- C6: once the length checks pass, the parse proceeds in the order
`pi_a`, `pi_b`, `pi_c`, public signals; the first failing component's
error is the whole result (no partial result), and on success the public
inputs are the scalar reductions of the signal strings in input order. -/
theorem C6_fail_fast_in_order : ∀ (p : SnarkJSProof) (a0 a1 c0 c1 : String),
    p.pi_a = [a0, a1] → p.pi_b.length = 2 → p.pi_c = [c0, c1] →
    (∀ e, parse_g1_point a0 a1 = .error e →
      to_arkworks_proof p = some (.error e)) ∧
    (∀ pa e, parse_g1_point a0 a1 = .ok pa →
      parse_g2_point p.pi_b = some (.error e) →
      to_arkworks_proof p = some (.error e)) ∧
    (∀ pa pb e, parse_g1_point a0 a1 = .ok pa →
      parse_g2_point p.pi_b = some (.ok pb) →
      parse_g1_point c0 c1 = .error e →
      to_arkworks_proof p = some (.error e)) ∧
    (∀ pa pb pc e, parse_g1_point a0 a1 = .ok pa →
      parse_g2_point p.pi_b = some (.ok pb) →
      parse_g1_point c0 c1 = .ok pc →
      parseFrList p.public_signals = .error e →
      to_arkworks_proof p = some (.error e)) ∧
    (∀ pa pb pc vs, parse_g1_point a0 a1 = .ok pa →
      parse_g2_point p.pi_b = some (.ok pb) →
      parse_g1_point c0 c1 = .ok pc →
      parseFrList p.public_signals = .ok vs →
      to_arkworks_proof p = some (.ok ⟨pa, pb, pc, vs⟩) ∧
      vs.length = p.public_signals.length ∧
      (∀ i s, p.public_signals.get? i = some s →
        ∃ v, vs.get? i = some v ∧ parse_fr_element s = .ok v)) := by
  intro p a0 a1 c0 c1 ha hb hc
  have ha2 : p.pi_a.length = 2 := by rw [ha]; rfl
  have hc2 : p.pi_c.length = 2 := by rw [hc]; rfl
  have hred : to_arkworks_proof p =
      (match parse_g1_point a0 a1 with
      | .error e => some (.error e)
      | .ok pa =>
        match parse_g2_point p.pi_b with
        | none => none
        | some (.error e) => some (.error e)
        | some (.ok pb) =>
          match parse_g1_point c0 c1 with
          | .error e => some (.error e)
          | .ok pc =>
            match parseFrList p.public_signals with
            | .error e => some (.error e)
            | .ok vs => some (.ok ⟨pa, pb, pc, vs⟩)) := by
    unfold to_arkworks_proof
    rw [if_neg (not_ne_iff.mpr ha2), if_neg (not_ne_iff.mpr hb),
      if_neg (not_ne_iff.mpr hc2), ha, hc]
    rfl
  refine ⟨fun e he => ?_, fun pa e hpa he => ?_,
    fun pa pb e hpa hpb he => ?_, fun pa pb pc e hpa hpb hpc he => ?_,
    fun pa pb pc vs hpa hpb hpc hvs => ⟨?_, parseFrList_ok_length hvs,
      parseFrList_ok_get hvs⟩⟩
  · rw [hred, he]
  · rw [hred, hpa, he]
  · rw [hred, hpa, hpb, he]
  · rw [hred, hpa, hpb, hpc, he]
  · rw [hred, hpa, hpb, hpc, hvs]

/-- C6 witness: the crate's dummy proof parses in order into its literal
points and the single public input 208. -/
theorem C6_fail_fast_in_order_witness :
    to_arkworks_proof create_dummy_proof =
      some (.ok ⟨.point 1 2, .point 1 0 2 0, .point 3 4, [208]⟩) :=
  ((C6_fail_fast_in_order create_dummy_proof "1" "2" "3" "4" rfl rfl rfl
    ).2.2.2.2 (.point 1 2) (.point 1 0 2 0) (.point 3 4) [208]
    rfl rfl rfl rfl).1

/-- C7: serializing a raw proof to JSON and deserializing the result
gives back the same raw proof field by field, with the string values
carried literally (no re-normalization), and the public-input array is
emitted under the wire key `publicSignals`. -/
theorem C7_wire_roundtrip : ∀ p : SnarkJSProof,
    deserializeProof (serializeProof p) = some p ∧
    jsonObjKeys (serializeProof p) = ["pi_a", "pi_b", "pi_c", "publicSignals"] := by
  intro p
  refine ⟨?_, rfl⟩
  show (match jsonAsStrList (.arr (p.pi_a.map .str)) with
    | none => none
    | some a =>
      match jsonAsStrListList (.arr (p.pi_b.map fun r => .arr (r.map .str))) with
      | none => none
      | some b =>
        match jsonAsStrList (.arr (p.pi_c.map .str)) with
        | none => none
        | some c =>
          match jsonAsStrList (.arr (p.public_signals.map .str)) with
          | none => none
          | some s => some ⟨a, b, c, s⟩) = some p
  rw [jsonAsStrList_roundtrip, jsonAsStrListList_roundtrip,
    jsonAsStrList_roundtrip, jsonAsStrList_roundtrip]

/-- C8 counterexample: a string wrapped in two pairs of double quotes
still decodes successfully (all surrounding quotes are trimmed), whereas
the claim predicts that only the outer pair is removed and the remainder
fails to decode. -/
theorem C8_single_pair_counterexample :
    parse_fr_element
        (String.mk [quoteChar, quoteChar, '2', '0', '8', quoteChar, quoteChar]) =
      .ok 208 ∧
    parse_fq_element
        (String.mk [quoteChar, quoteChar, '2', '0', '8', quoteChar, quoteChar]) =
      .ok 208 :=
  ⟨rfl, rfl⟩

/-- C8 (amended): before classifying, the decoders trim all surrounding
double-quote characters from both ends (repeatedly, and each end
independently), so wrapping an input in quotes never changes the result
and a multiply-quoted string decodes like its fully unwrapped form; no
whitespace tolerance is applied (a single leading space already fails). -/
theorem C8_quote_trimming :
    (∀ l, parseFqChars (quoteChar :: l) = parseFqChars l) ∧
    (∀ l, parseFqChars (l ++ [quoteChar]) = parseFqChars l) ∧
    (∀ l, parseFrChars (quoteChar :: l) = parseFrChars l) ∧
    (∀ l, parseFrChars (l ++ [quoteChar]) = parseFrChars l) ∧
    parse_fr_element " 208" = .error (.invalidFieldElement " 208") ∧
    parse_fq_element " 208" = .error (.invalidFieldElement " 208") :=
  ⟨fun l => parseFqChars_congr (trimQuotes_quote_head l),
   fun l => parseFqChars_congr (trimQuotes_quote_last l),
   fun l => parseFrChars_congr (trimQuotes_quote_head l),
   fun l => parseFrChars_congr (trimQuotes_quote_last l),
   rfl, rfl⟩

/-- The dispatch fails exactly when both the hex arm and the decimal
attempt fail. -/
theorem decodeBig_none_iff {t : List Char} :
    decodeBig t = none ↔ (hexArm t = none ∧ decVal t = none) := by
  unfold decodeBig
  cases h : hexArm t with
  | none => simp
  | some m => simp

/-- C9 counterexample: on a failing input wrapped in quotes, the error
payload is the quote-trimmed string, not the original input as supplied
to the decoder. -/
theorem C9_error_payload_counterexample :
    parse_fr_element (String.mk [quoteChar, 'z', 'z', quoteChar]) =
      .error (.invalidFieldElement "zz") ∧
    ("zz" : String) ≠ String.mk [quoteChar, 'z', 'z', quoteChar] :=
  ⟨rfl, by decide⟩

/-- C9 (amended): both decoders fail exactly on inputs whose
quote-trimmed form is accepted by neither the `0x`/`0X` hex arm nor the
decimal parser, and the resulting error is `InvalidFieldElement` carrying
the quote-trimmed string (not the original input). -/
theorem C9_failure_condition : ∀ s : String,
    ((∃ e, parse_fq_element s = .error e) ↔
      (hexArm (trimQuotes s.data) = none ∧
        decVal (trimQuotes s.data) = none)) ∧
    (∀ e, parse_fq_element s = .error e →
      e = .invalidFieldElement (String.mk (trimQuotes s.data))) ∧
    ((∃ e, parse_fr_element s = .error e) ↔
      (hexArm (trimQuotes s.data) = none ∧
        decVal (trimQuotes s.data) = none)) ∧
    (∀ e, parse_fr_element s = .error e →
      e = .invalidFieldElement (String.mk (trimQuotes s.data))) := by
  intro s
  refine ⟨⟨fun ⟨e, he⟩ => ?_, fun h => ?_⟩, fun e he => ?_,
    ⟨fun ⟨e, he⟩ => ?_, fun h => ?_⟩, fun e he => ?_⟩
  · exact decodeBig_none_iff.mp (parseFqChars_error_iff.mp he).1
  · exact ⟨_, parseFqChars_error_iff.mpr ⟨decodeBig_none_iff.mpr h, rfl⟩⟩
  · exact (parseFqChars_error_iff.mp he).2
  · exact decodeBig_none_iff.mp (parseFrChars_error_iff.mp he).1
  · exact ⟨_, parseFrChars_error_iff.mpr ⟨decodeBig_none_iff.mpr h, rfl⟩⟩
  · exact (parseFrChars_error_iff.mp he).2

/-- C9 witness: for the quoted input `"zz"` both failure conditions hold
concretely and the theorem yields the trimmed-payload error. -/
theorem C9_failure_condition_witness :
    parse_fr_element (String.mk [quoteChar, 'z', 'z', quoteChar]) =
      .error (.invalidFieldElement
        (String.mk (trimQuotes (String.mk [quoteChar, 'z', 'z', quoteChar]).data))) ∧
    parse_fq_element "zz" =
      .error (.invalidFieldElement
        (String.mk (trimQuotes ("zz" : String).data))) := by
  constructor
  · obtain ⟨e, he⟩ :=
      ((C9_failure_condition
        (String.mk [quoteChar, 'z', 'z', quoteChar])).2.2.1).mpr ⟨rfl, rfl⟩
    rw [he, (C9_failure_condition
      (String.mk [quoteChar, 'z', 'z', quoteChar])).2.2.2 e he]
  · obtain ⟨e, he⟩ := ((C9_failure_condition "zz").1).mpr ⟨rfl, rfl⟩
    rw [he, (C9_failure_condition "zz").2.1 e he]
